import Mathlib

/-!
Verification development for the timetable generator
(`final_timetable_generator.py`).  The constraint model built by
`TimetableGenerator.add_constraints` is embedded shallowly: a boolean
assignment of the CP-SAT decision variables is a function
`Asgn : String → String → Nat → String → Bool` (section, day, period, course),
and each numbered constraint block of `add_constraints` becomes a boolean
checker over such assignments.  Solution extraction (`solve`, lines 152-164)
and the fixed-slot pinning loop (lines 133-135) are embedded as well.
-/

namespace TT

/-- Days of the teaching week (source line 12). -/
def days : List String := ["Mon", "Tue", "Wed", "Thu", "Fri", "Sat"]

/-- The two class sections (source line 22). -/
def sections : List String := ["A", "B"]

/-- The period ids `range(1, 8)` used by every constraint loop
(source lines 62, 70, 79, ...). -/
def periodIds : List Nat := [1, 2, 3, 4, 5, 6, 7]

/-- A course catalog entry: (identifier, (weekly_count, (is_lab, teacher))),
mirroring the tuples of `self.courses` (source lines 26-38). -/
abbrev CourseEntry := String × Nat × Bool × String

/-- The eleven built-in courses, in dict insertion order (source lines 26-38). -/
def baseCourses : List CourseEntry :=
  [("PAS", 5, false, "Ms. Sowmiya"),
   ("OS", 6, false, "Ms. K.Sudha"),
   ("ML", 5, false, "Mr. Dinesh Kumar"),
   ("FDSA", 5, false, "Ms. Deepika"),
   ("CN", 6, false, "Ms. Kirupavathy"),
   ("EVS", 4, false, "Ms. Sophia"),
   ("FDSA_LAB", 2, true, "Ms. Deepika"),
   ("ML_LAB", 2, true, "Mr. Dinesh Kumar"),
   ("PD", 2, false, "Ms. Kirupavathy"),
   ("LIB", 1, false, "Ms. Kirupavathy"),
   ("ACT", 2, false, "All Staff")]

/-- `self.courses` as a function of `include_free_periods`: when the flag is
set, the pseudo-course FREE is appended (source lines 40-42). -/
def courses (free : Bool) : List CourseEntry :=
  baseCourses ++ (if free then [("FREE", 2, false, "None")] else [])

/-- The course identifiers, in iteration order (`for c in self.courses`). -/
def courseNames (free : Bool) : List String := (courses free).map (fun e => e.1)

/-- The fixed administrative slots (source lines 45-50). -/
def fixed_slots : List (String × String × Nat × String) :=
  [("A", "Tue", 2, "PD"), ("A", "Fri", 4, "PD"),
   ("B", "Tue", 3, "PD"), ("B", "Fri", 5, "PD"),
   ("A", "Thu", 6, "LIB"), ("B", "Thu", 7, "LIB"),
   ("A", "Fri", 7, "ACT"), ("B", "Sat", 7, "ACT")]

/-- A full boolean valuation of the decision variables
`assign[(sec, day, period, course)]` (source lines 58-64). -/
abbrev Asgn := String → String → Nat → String → Bool

/-- `sum(self.assign[(s,d,p,c)] for c in self.courses)`: the number of true
course variables at one (section, day, period) slot. -/
def slotSum (free : Bool) (a : Asgn) (s d : String) (p : Nat) : Nat :=
  ((courseNames free).map (fun c => (a s d p c).toNat)).sum

/-- Constraint block 1 (source lines 67-74): exactly one course per slot, or
at most one when free periods are allowed. -/
def rule1 (free : Bool) (a : Asgn) : Bool :=
  sections.all fun s => days.all fun d => periodIds.all fun p =>
    cond free (decide (slotSum free a s d p ≤ 1)) (decide (slotSum free a s d p = 1))

/-- The weekly total of true variables of one course in one section
(`sum(... for d in self.days for p in range(1, 8))`, source line 79). -/
def courseSum (a : Asgn) (s c : String) : Nat :=
  (days.map fun d => (periodIds.map fun p => (a s d p c).toNat).sum).sum

/-- Constraint block 2 (source lines 76-79): each course occupies exactly its
`weekly_count` many period slots in each section. -/
def rule2 (free : Bool) (a : Asgn) : Bool :=
  sections.all fun s => (courses free).all fun e => decide (courseSum a s e.1 = e.2.1)

/-- The teachers subject to the conflict constraint: every catalog teacher
except the sentinel "None" (source line 84). -/
def teacherNames (free : Bool) : List String :=
  (((courses free).map (fun e => e.2.2.2)).filter (fun t => !(t == "None")))

/-- The number of simultaneously true variables of courses taught by teacher
`t` at `(d, p)`, across both sections (source lines 85-89). -/
def teacherSum (free : Bool) (a : Asgn) (d : String) (p : Nat) (t : String) : Nat :=
  (sections.map fun s =>
    (((courses free).filter fun e => e.2.2.2 == t).map fun e => (a s d p e.1).toNat).sum).sum

/-- Constraint block 3 (source lines 81-89): no real teacher teaches two
sections at the same (day, period). -/
def rule3 (free : Bool) (a : Asgn) : Bool :=
  days.all fun d => periodIds.all fun p => (teacherNames free).all fun t =>
    decide (teacherSum free a d p t ≤ 1)

/-- The theory courses of constraint block 4: non-lab and not one of
PD, LIB, ACT, FREE (source lines 92-93). -/
def theoryCourses (free : Bool) : List String :=
  (((courses free).filter fun e =>
    !e.2.2.1 && !(["PD", "LIB", "ACT", "FREE"].contains e.1)).map (fun e => e.1))

/-- Constraint block 4 (source lines 91-97): a theory course at most once per
day per section. -/
def rule4 (free : Bool) (a : Asgn) : Bool :=
  sections.all fun s => days.all fun d => (theoryCourses free).all fun c =>
    decide ((periodIds.map fun p => (a s d p c).toNat).sum ≤ 1)

/-- The lab courses (`is_lab` true, source line 101). -/
def labCourses (free : Bool) : List String :=
  (((courses free).filter fun e => e.2.2.1).map (fun e => e.1))

/-- The two admissible period pairs for a lab session (source line 102). -/
def validLabSlots : List (Nat × Nat) := [(4, 5), (6, 7)]

/-- `[p for slot in valid_lab_slots for p in slot]` (source line 119). -/
def validPeriods : List Nat := (validLabSlots.map fun pr => [pr.1, pr.2]).flatten

/-- The number of true lab-course variables in one section on one day
(source lines 107-109). -/
def labDaySum (free : Bool) (a : Asgn) (s d : String) : Nat :=
  ((labCourses free).map fun c => (periodIds.map fun p => (a s d p c).toNat).sum).sum

/-- Constraint block 5 (source lines 99-122): at most one lab session (two
periods) per section per day, each pair (4,5) and (6,7) has equal truth
values, and lab variables vanish outside periods 4-7. -/
def rule5 (free : Bool) (a : Asgn) : Bool :=
  sections.all fun s => days.all fun d =>
    decide (labDaySum free a s d ≤ 2) &&
    ((labCourses free).all fun c =>
      (validLabSlots.all fun pr => a s d pr.1 c == a s d pr.2 c) &&
      (periodIds.all fun p => validPeriods.contains p || (a s d p c == false)))

/-- Whether the characters of `t` occur contiguously at the front of `s`. -/
def chStarts : List Char → List Char → Bool
  | _, [] => true
  | [], _ :: _ => false
  | a :: as, b :: bs => a == b && chStarts as bs

/-- Whether the characters of `t` occur contiguously somewhere in `s`. -/
def chHas : List Char → List Char → Bool
  | [], t => t.isEmpty
  | a :: as, t => chStarts (a :: as) t || chHas as t

/-- Python's substring test `sub in c` used on course identifiers
(source line 129). -/
def strHas (c sub : String) : Bool := chHas c.data sub.data

/-- `range(1, 7)` of constraint block 6 (source line 127). -/
def consecPeriods : List Nat := [1, 2, 3, 4, 5, 6]

/-- Constraint block 6 (source lines 124-131): no course in two consecutive
periods, skipped exactly for identifiers containing "LAB". -/
def rule6 (free : Bool) (a : Asgn) : Bool :=
  sections.all fun s => days.all fun d => consecPeriods.all fun p =>
    (courseNames free).all fun c =>
      strHas c ("LAB") || decide ((a s d p c).toNat + (a s d (p + 1) c).toNat ≤ 1)

/-- Constraint block 7 (source lines 133-135): every fixed slot is forced true. -/
def rule7 (a : Asgn) : Bool :=
  fixed_slots.all fun x => a x.1 x.2.1 x.2.2.1 x.2.2.2

/-- The complete constraint set of `add_constraints` as one boolean check. -/
def satisfiesB (free : Bool) (a : Asgn) : Bool :=
  rule1 free a && rule2 free a && rule3 free a && rule4 free a &&
    rule5 free a && rule6 free a && rule7 a

/-- An assignment satisfies the model built by `add_constraints`. -/
def Satisfies (free : Bool) (a : Asgn) : Prop := satisfiesB free a = true

/-- Solution extraction (`solve`, source lines 152-164): for a slot, iterate
the courses in catalog order and record (course, teacher) for each true
variable; a later true variable silently overwrites an earlier one, and a slot
with no true variable stays absent. -/
def extract (free : Bool) (a : Asgn) (s d : String) (p : Nat) : Option (String × String) :=
  (courses free).foldl (fun r e => if a s d p e.1 then some (e.1, e.2.2.2) else r) none

/-- The teacher recorded for a course in the catalog
(`_, _, teacher = self.courses[c]`, source line 160). -/
def courseTeacher (free : Bool) (c : String) : String :=
  match (courses free).find? (fun e => e.1 == c) with
  | some e => e.2.2.2
  | none => ""

/-- The last entry of `l` satisfying `q`, if any: the value extraction keeps
after its overwriting loop. -/
def lastTrue (q : CourseEntry → Bool) : List CourseEntry → Option CourseEntry
  | [] => none
  | e :: l =>
    match lastTrue q l with
    | some y => some y
    | none => if q e then some e else none

/-- A concrete full timetable used as a satisfying witness for the model with
`include_free_periods = true`: the course occupying each (section, day,
period) slot. -/
def planCourse (s d : String) (p : Nat) : String :=
  match s, d, p with
  | "A", "Mon", 1 => "OS"
  | "A", "Mon", 2 => "CN"
  | "A", "Mon", 3 => "PAS"
  | "A", "Mon", 4 => "FDSA_LAB"
  | "A", "Mon", 5 => "FDSA_LAB"
  | "A", "Mon", 6 => "ML"
  | "A", "Mon", 7 => "EVS"
  | "A", "Tue", 1 => "CN"
  | "A", "Tue", 2 => "PD"
  | "A", "Tue", 3 => "OS"
  | "A", "Tue", 4 => "FDSA"
  | "A", "Tue", 5 => "PAS"
  | "A", "Tue", 6 => "EVS"
  | "A", "Tue", 7 => "ML"
  | "A", "Wed", 1 => "PAS"
  | "A", "Wed", 2 => "OS"
  | "A", "Wed", 3 => "CN"
  | "A", "Wed", 4 => "EVS"
  | "A", "Wed", 5 => "FDSA"
  | "A", "Wed", 6 => "ML_LAB"
  | "A", "Wed", 7 => "ML_LAB"
  | "A", "Thu", 1 => "CN"
  | "A", "Thu", 2 => "ML"
  | "A", "Thu", 3 => "FDSA"
  | "A", "Thu", 4 => "OS"
  | "A", "Thu", 5 => "PAS"
  | "A", "Thu", 6 => "LIB"
  | "A", "Thu", 7 => "FREE"
  | "A", "Fri", 1 => "OS"
  | "A", "Fri", 2 => "CN"
  | "A", "Fri", 3 => "ML"
  | "A", "Fri", 4 => "PD"
  | "A", "Fri", 5 => "EVS"
  | "A", "Fri", 6 => "FDSA"
  | "A", "Fri", 7 => "ACT"
  | "A", "Sat", 1 => "OS"
  | "A", "Sat", 2 => "PAS"
  | "A", "Sat", 3 => "ML"
  | "A", "Sat", 4 => "FDSA"
  | "A", "Sat", 5 => "CN"
  | "A", "Sat", 6 => "ACT"
  | "A", "Sat", 7 => "FREE"
  | "B", "Mon", 1 => "CN"
  | "B", "Mon", 2 => "OS"
  | "B", "Mon", 3 => "ML"
  | "B", "Mon", 4 => "PAS"
  | "B", "Mon", 5 => "EVS"
  | "B", "Mon", 6 => "FDSA_LAB"
  | "B", "Mon", 7 => "FDSA_LAB"
  | "B", "Tue", 1 => "PAS"
  | "B", "Tue", 2 => "OS"
  | "B", "Tue", 3 => "PD"
  | "B", "Tue", 4 => "ML_LAB"
  | "B", "Tue", 5 => "ML_LAB"
  | "B", "Tue", 6 => "FDSA"
  | "B", "Tue", 7 => "CN"
  | "B", "Wed", 1 => "OS"
  | "B", "Wed", 2 => "CN"
  | "B", "Wed", 3 => "FDSA"
  | "B", "Wed", 4 => "ML"
  | "B", "Wed", 5 => "PAS"
  | "B", "Wed", 6 => "EVS"
  | "B", "Wed", 7 => "FREE"
  | "B", "Thu", 1 => "OS"
  | "B", "Thu", 2 => "FDSA"
  | "B", "Thu", 3 => "ML"
  | "B", "Thu", 4 => "PAS"
  | "B", "Thu", 5 => "CN"
  | "B", "Thu", 6 => "FREE"
  | "B", "Thu", 7 => "LIB"
  | "B", "Fri", 1 => "CN"
  | "B", "Fri", 2 => "OS"
  | "B", "Fri", 3 => "FDSA"
  | "B", "Fri", 4 => "ML"
  | "B", "Fri", 5 => "PD"
  | "B", "Fri", 6 => "PAS"
  | "B", "Fri", 7 => "EVS"
  | "B", "Sat", 1 => "CN"
  | "B", "Sat", 2 => "ACT"
  | "B", "Sat", 3 => "OS"
  | "B", "Sat", 4 => "ML"
  | "B", "Sat", 5 => "FDSA"
  | "B", "Sat", 6 => "EVS"
  | "B", "Sat", 7 => "ACT"
  | _, _, _ => ""

/-- The boolean valuation of the decision variables induced by `planCourse`. -/
def wAsgn : Asgn := fun s d p c => planCourse s d p == c

/-- The concrete timetable `wAsgn` satisfies the whole constraint set when
free periods are enabled; it witnesses that the model is then feasible. -/
lemma plan_sat : Satisfies true wAsgn := by
  show satisfiesB true wAsgn = true
  decide

/-- A sum of boolean indicators over a list is the count of elements whose
indicator is true. -/
lemma sum_toNat_countP (l : List String) (f : String → Bool) :
    (l.map fun c => (f c).toNat).sum = l.countP f := by
  induction l with
  | nil => rfl
  | cons x xs ih =>
    rw [List.map_cons, List.sum_cons, ih, List.countP_cons]
    cases hx : f x <;> simp [hx, Nat.add_comm]

/-- Splitting a satisfying assignment into the seven constraint blocks. -/
lemma sat_rules {free : Bool} {a : Asgn} (h : Satisfies free a) :
    rule1 free a = true ∧ rule2 free a = true ∧ rule3 free a = true ∧
      rule4 free a = true ∧ rule5 free a = true ∧ rule6 free a = true ∧
      rule7 a = true := by
  have h' : satisfiesB free a = true := h
  simp only [satisfiesB, Bool.and_eq_true] at h'
  obtain ⟨⟨⟨⟨⟨⟨h1, h2⟩, h3⟩, h4⟩, h5⟩, h6⟩, h7⟩ := h'
  exact ⟨h1, h2, h3, h4, h5, h6, h7⟩

/-- Without free periods, constraint 1 forces each slot sum to be exactly 1. -/
lemma slot_exact_of_sat {a : Asgn} (h : Satisfies false a) :
    ∀ s ∈ sections, ∀ d ∈ days, ∀ p ∈ periodIds, slotSum false a s d p = 1 := by
  intro s hs d hd p hp
  have h1 := (sat_rules h).1
  rw [rule1, List.all_eq_true] at h1
  have h1 := h1 s hs
  rw [List.all_eq_true] at h1
  have h1 := h1 d hd
  rw [List.all_eq_true] at h1
  have h1 := h1 p hp
  rw [Bool.cond_false] at h1
  exact of_decide_eq_true h1

/-- In both configurations, constraint 1 bounds each slot sum by 1. -/
lemma slot_le_of_sat {free : Bool} {a : Asgn} (h : Satisfies free a) :
    ∀ s ∈ sections, ∀ d ∈ days, ∀ p ∈ periodIds, slotSum free a s d p ≤ 1 := by
  intro s hs d hd p hp
  have h1 := (sat_rules h).1
  rw [rule1, List.all_eq_true] at h1
  have h1 := h1 s hs
  rw [List.all_eq_true] at h1
  have h1 := h1 d hd
  rw [List.all_eq_true] at h1
  have h1 := h1 p hp
  cases free
  · rw [Bool.cond_false] at h1
    have h2 := of_decide_eq_true h1
    omega
  · rw [Bool.cond_true] at h1
    exact of_decide_eq_true h1

/-- Constraint 2 pointwise: the weekly quota of every course is met exactly. -/
lemma quota_of_sat {free : Bool} {a : Asgn} (h : Satisfies free a) :
    ∀ e ∈ courses free, ∀ s ∈ sections, courseSum a s e.1 = e.2.1 := by
  intro e he s hs
  have h2 := (sat_rules h).2.1
  rw [rule2, List.all_eq_true] at h2
  have h2 := h2 s hs
  rw [List.all_eq_true] at h2
  have h2 := h2 e he
  exact of_decide_eq_true h2

/-- C1: for every assignment satisfying the constraints of `add_constraints`,
and every section, day and period: with `include_free_periods = false` exactly
one course variable is true at the slot, and with the flag set at most one is. -/
theorem C1_slot_coverage (free : Bool) (a : Asgn) (h : Satisfies free a) :
    ∀ s ∈ sections, ∀ d ∈ days, ∀ p ∈ periodIds,
      (free = false → (courseNames free).countP (fun c => a s d p c) = 1) ∧
      (free = true → (courseNames free).countP (fun c => a s d p c) ≤ 1) := by
  intro s hs d hd p hp
  constructor
  · rintro rfl
    have hx := slot_exact_of_sat h s hs d hd p hp
    rwa [slotSum, sum_toNat_countP] at hx
  · rintro rfl
    have hx := slot_le_of_sat h s hs d hd p hp
    rwa [slotSum, sum_toNat_countP] at hx

/-- Witness for C1 at the concrete feasible timetable `wAsgn`. -/
theorem C1_slot_coverage_witness :
    (courseNames true).countP (fun c => wAsgn ("A") ("Mon") 1 c) ≤ 1 :=
  (C1_slot_coverage true wAsgn plan_sat ("A") (by decide) ("Mon") (by decide)
    1 (by decide)).2 rfl

/-- Pointwise-equal summands give equal list sums. -/
lemma sum_congr_mem {α : Type} (l : List α) (f g : α → Nat) (h : ∀ x ∈ l, f x = g x) :
    (l.map f).sum = (l.map g).sum := by
  induction l with
  | nil => rfl
  | cons x xs ih =>
    rw [List.map_cons, List.map_cons, List.sum_cons, List.sum_cons,
      h x (List.mem_cons_self x xs), ih (fun y hy => h y (List.mem_cons_of_mem x hy))]

/-- A list sum of constant summands. -/
lemma sum_const_mem {α : Type} (l : List α) (f : α → Nat) (k : Nat)
    (h : ∀ x ∈ l, f x = k) : (l.map f).sum = l.length * k := by
  induction l with
  | nil => simp
  | cons x xs ih =>
    rw [List.map_cons, List.sum_cons, h x (List.mem_cons_self x xs),
      ih (fun y hy => h y (List.mem_cons_of_mem x hy)), List.length_cons]
    ring

/-- A list sum distributes over pointwise addition of the summands. -/
lemma sum_map_add2 {α : Type} (l : List α) (f g : α → Nat) :
    (l.map fun x => f x + g x).sum = (l.map f).sum + (l.map g).sum := by
  induction l with
  | nil => rfl
  | cons x xs ih =>
    rw [List.map_cons, List.map_cons, List.map_cons, List.sum_cons, List.sum_cons,
      List.sum_cons, ih]
    omega

/-- Exchanging the order of a double list sum. -/
lemma sum_swap {α β : Type} (l1 : List α) (l2 : List β) (f : α → β → Nat) :
    (l1.map fun x => (l2.map fun y => f x y).sum).sum
      = (l2.map fun y => (l1.map fun x => f x y).sum).sum := by
  induction l1 with
  | nil => simp
  | cons x xs ih =>
    rw [List.map_cons, List.sum_cons, ih, ← sum_map_add2 l2 (fun y => f x y)
      (fun y => (xs.map fun z => f z y).sum)]
    exact (sum_congr_mem l2 _ _ (fun y _ => by rw [List.map_cons, List.sum_cons])).symm

/-- C2: in every satisfying assignment, each (section, course) pair occupies
exactly the course's configured `weekly_count` many (day, period) slots. -/
theorem C2_course_quota (free : Bool) (a : Asgn) (h : Satisfies free a) :
    ∀ e ∈ courses free, ∀ s ∈ sections, courseSum a s e.1 = e.2.1 :=
  quota_of_sat h

/-- Witness for C2: in the concrete timetable, PAS occupies exactly 5 slots of
section A. -/
theorem C2_course_quota_witness : courseSum wAsgn ("A") ("PAS") = 5 :=
  C2_course_quota true wAsgn plan_sat ("PAS", 5, false, "Ms. Sowmiya")
    (by decide) ("A") (by decide)

/-- C3: with `include_free_periods = false` the model of `add_constraints` is
unsatisfiable, so `solve()` cannot find an assignment and returns False.
Constraint 1 forces each of the 6 × 7 = 42 slots of a section to hold exactly
one course, while constraint 2 forces the per-section total of true variables
to equal the sum of the configured weekly counts, which is 40. -/
theorem C3_infeasible_without_free_periods :
    (∀ a : Asgn, satisfiesB false a = false) ∧
      ((courses false).map fun e => e.2.1).sum = 40 ∧
      days.length * periodIds.length = 42 := by
  refine ⟨?_, by rfl, by rfl⟩
  intro a
  cases hb : satisfiesB false a with
  | false => rfl
  | true =>
    exfalso
    have h : Satisfies false a := hb
    have hq := quota_of_sat h
    have T1 : (days.map fun d =>
        (periodIds.map fun p => slotSum false a ("A") d p).sum).sum = 42 := by
      rw [sum_const_mem days _ 7 (fun d hd => by
        rw [sum_const_mem periodIds _ 1
          (fun p hp => slot_exact_of_sat h ("A") (by decide) d hd p hp)]
        rfl)]
      rfl
    have T2 : ((courses false).map fun e => courseSum a ("A") e.1).sum = 40 := by
      rw [sum_congr_mem (courses false) _ (fun e => e.2.1)
        (fun e he => hq e he ("A") (by decide))]
      rfl
    have T3 : (days.map fun d =>
        (periodIds.map fun p => slotSum false a ("A") d p).sum).sum
        = ((courses false).map fun e => courseSum a ("A") e.1).sum := by
      simp only [slotSum, courseSum, courseNames, List.map_map, Function.comp_def]
      rw [sum_congr_mem days _ _ (fun d _ => sum_swap periodIds (courses false)
        (fun p e => (a ("A") d p e.1).toNat))]
      rw [sum_swap days (courses false)
        (fun d e => (periodIds.map fun p => (a ("A") d p e.1).toNat).sum)]
    rw [T3, T2] at T1
    exact absurd T1 (by decide)

/-- C4 (code bug): constraint 2 applies `weekly_count` to single period-slots
even for labs, so in every satisfying assignment each lab course occupies
exactly its `weekly_count` = 2 period-slots (one two-period session) per
section — not 2 × weekly_count = 4 period-slots (two sessions) as the claim
and the code's own comments (source lines 25, 33-34) state. -/
theorem C4_lab_quota_counts_periods (free : Bool) (a : Asgn) (h : Satisfies free a) :
    ∀ e ∈ courses free, e.2.2.1 = true → ∀ s ∈ sections,
      e.2.1 = 2 ∧ courseSum a s e.1 = 2 ∧ courseSum a s e.1 ≠ 2 * e.2.1 := by
  intro e he hlab s hs
  have hcat : ∀ x ∈ courses free, x.2.2.1 = true → x.2.1 = 2 := by
    cases free <;> decide
  have hcnt : e.2.1 = 2 := hcat e he hlab
  have hqe := quota_of_sat h e he s hs
  rw [hcnt] at hqe
  refine ⟨hcnt, hqe, ?_⟩
  rw [hqe, hcnt]
  decide

/-- Witness for C4 at the concrete feasible timetable: FDSA_LAB occupies 2
period-slots in section A, not 4. -/
theorem C4_lab_quota_counts_periods_witness :
    courseSum wAsgn ("A") ("FDSA_LAB") = 2 ∧
      courseSum wAsgn ("A") ("FDSA_LAB") ≠ 2 * 2 := by
  have h := C4_lab_quota_counts_periods true wAsgn plan_sat
    ("FDSA_LAB", 2, true, "Ms. Deepika") (by decide) rfl ("A") (by decide)
  exact ⟨h.2.1, h.2.2⟩

/-- C5: in every satisfying assignment, every lab course is false outside
periods {4,5,6,7}, the pairs (4,5) and (6,7) carry equal truth values, and at
most 2 lab periods (one session) occur per section per day. -/
theorem C5_lab_contiguity (free : Bool) (a : Asgn) (h : Satisfies free a) :
    ∀ c ∈ labCourses free, ∀ s ∈ sections, ∀ d ∈ days,
      (∀ p ∈ periodIds, validPeriods.contains p = false → a s d p c = false) ∧
      a s d 4 c = a s d 5 c ∧ a s d 6 c = a s d 7 c ∧
      labDaySum free a s d ≤ 2 := by
  intro c hc s hs d hd
  have h5 := (sat_rules h).2.2.2.2.1
  rw [rule5, List.all_eq_true] at h5
  have h5 := h5 s hs
  rw [List.all_eq_true] at h5
  have h5 := h5 d hd
  rw [Bool.and_eq_true] at h5
  obtain ⟨hsum, hrest⟩ := h5
  rw [List.all_eq_true] at hrest
  have hc5 := hrest c hc
  rw [Bool.and_eq_true] at hc5
  obtain ⟨hpairs, hout⟩ := hc5
  rw [List.all_eq_true] at hpairs
  rw [List.all_eq_true] at hout
  refine ⟨?_, ?_, ?_, of_decide_eq_true hsum⟩
  · intro p hp hnp
    have ho := hout p hp
    rw [Bool.or_eq_true] at ho
    cases ho with
    | inl hco => rw [hnp] at hco; exact absurd hco (by decide)
    | inr hfo => exact eq_of_beq hfo
  · exact eq_of_beq (hpairs (4, 5) (by decide))
  · exact eq_of_beq (hpairs (6, 7) (by decide))

/-- Witness for C5 at the concrete feasible timetable, for FDSA_LAB in
section A on Monday. -/
theorem C5_lab_contiguity_witness :
    wAsgn ("A") ("Mon") 3 ("FDSA_LAB") = false ∧
      wAsgn ("A") ("Mon") 4 ("FDSA_LAB") = wAsgn ("A") ("Mon") 5 ("FDSA_LAB") ∧
      labDaySum true wAsgn ("A") ("Mon") ≤ 2 := by
  have h := C5_lab_contiguity true wAsgn plan_sat ("FDSA_LAB") (by decide)
    ("A") (by decide) ("Mon") (by decide)
  exact ⟨h.1 3 (by decide) (by decide), h.2.1, h.2.2.2⟩

/-- C6: in every satisfying assignment, each teacher subject to constraint 3
(every catalog teacher except the sentinel "None") teaches at most one course
across both sections at any (day, period); the sentinel "None" never appears
in the checked teacher list, and an assignment placing FREE in both sections
at every slot still passes constraint 3, so FREE is exempt from
teacher-conflict checking. -/
theorem C6_teacher_nonoverlap (free : Bool) (a : Asgn) (h : Satisfies free a) :
    (∀ d ∈ days, ∀ p ∈ periodIds, ∀ t ∈ teacherNames free,
        teacherSum free a d p t ≤ 1) ∧
      (teacherNames true).contains ("None") = false ∧
      (teacherNames false).contains ("None") = false ∧
      rule3 true (fun _ _ _ c => c == "FREE") = true := by
  refine ⟨?_, by decide, by decide, by decide⟩
  intro d hd p hp t ht
  have h3 := (sat_rules h).2.2.1
  rw [rule3, List.all_eq_true] at h3
  have h3 := h3 d hd
  rw [List.all_eq_true] at h3
  have h3 := h3 p hp
  rw [List.all_eq_true] at h3
  exact of_decide_eq_true (h3 t ht)

/-- Witness for C6 at the concrete feasible timetable. -/
theorem C6_teacher_nonoverlap_witness :
    teacherSum true wAsgn ("Mon") 1 ("Ms. Sowmiya") ≤ 1 :=
  (C6_teacher_nonoverlap true wAsgn plan_sat).1 ("Mon") (by decide) 1 (by decide)
    ("Ms. Sowmiya") (by decide)

/-- The overwriting fold of `extract` keeps the last entry whose variable is
true, and otherwise returns its accumulator. -/
lemma foldl_lastTrue {α : Type} (q : CourseEntry → Bool) (g : CourseEntry → α) :
    ∀ (l : List CourseEntry) (acc : Option α),
      l.foldl (fun r x => if q x then some (g x) else r) acc
        = match lastTrue q l with
          | some y => some (g y)
          | none => acc := by
  intro l
  induction l with
  | nil => intro acc; rfl
  | cons x xs ih =>
    intro acc
    rw [List.foldl_cons, ih]
    cases hxs : lastTrue q xs with
    | some y => simp [lastTrue, hxs]
    | none => cases hq : q x <;> simp [lastTrue, hxs, hq]

/-- If no entry satisfies `q`, there is no last true entry. -/
lemma lastTrue_none (q : CourseEntry → Bool) :
    ∀ l : List CourseEntry, (∀ x ∈ l, q x = false) → lastTrue q l = none := by
  intro l
  induction l with
  | nil => intro _; rfl
  | cons x xs ih =>
    intro h
    have hx := h x (List.mem_cons_self x xs)
    simp [lastTrue, ih (fun y hy => h y (List.mem_cons_of_mem x hy)), hx]

/-- If `e` is the unique entry satisfying `q`, it is the last true entry. -/
lemma lastTrue_unique (q : CourseEntry → Bool) :
    ∀ (l : List CourseEntry) (e : CourseEntry), e ∈ l → q e = true →
      (∀ y ∈ l, q y = true → y = e) → lastTrue q l = some e := by
  intro l
  induction l with
  | nil => intro e he; exact absurd he (List.not_mem_nil e)
  | cons x xs ih =>
    intro e he hq hu
    by_cases hex : e ∈ xs
    · have hx := ih e hex hq (fun y hy hqy => hu y (List.mem_cons_of_mem x hy) hqy)
      simp [lastTrue, hx]
    · have hx : x = e := by
        rcases List.mem_cons.mp he with h1 | h1
        · exact h1.symm
        · exact absurd h1 hex
      have hnone : lastTrue q xs = none := lastTrue_none q xs (fun y hy => by
        by_contra hqy
        rw [Bool.not_eq_false] at hqy
        exact hex ((hu y (List.mem_cons_of_mem x hy) hqy) ▸ hy))
      simp [lastTrue, hnone, hx, hq]

/-- Two distinct elements both satisfying `f` push the count to at least 2. -/
lemma two_le_countP (f : String → Bool) :
    ∀ (l : List String) (x y : String), x ∈ l → y ∈ l → x ≠ y →
      f x = true → f y = true → 2 ≤ l.countP f := by
  intro l
  induction l with
  | nil => intro x y hx _ _ _ _; exact absurd hx (List.not_mem_nil x)
  | cons a t ih =>
    intro x y hx hy hxy hfx hfy
    rw [List.countP_cons]
    rcases List.mem_cons.mp hx with rfl | hx2
    · rcases List.mem_cons.mp hy with rfl | hy2
      · exact absurd rfl hxy
      · have h1 : 0 < t.countP f := List.countP_pos_iff.mpr ⟨y, hy2, hfy⟩
        rw [if_pos hfx]
        omega
    · rcases List.mem_cons.mp hy with rfl | hy2
      · have h1 : 0 < t.countP f := List.countP_pos_iff.mpr ⟨x, hx2, hfx⟩
        rw [if_pos hfy]
        omega
      · have h2 := ih x y hx2 hy2 hxy hfx hfy
        omega

/-- The course identifiers of the catalog are pairwise distinct. -/
lemma courseNames_nodup (free : Bool) : ((courses free).map (fun e => e.1)).Nodup := by
  cases free <;> decide

/-- With at most one true course variable at a slot, any two true catalog
entries at that slot coincide. -/
lemma entry_unique {free : Bool} {a : Asgn} {s d : String} {p : Nat}
    (hcard : slotSum free a s d p ≤ 1) (e : CourseEntry) (he : e ∈ courses free)
    (ht : a s d p e.1 = true) :
    ∀ y ∈ courses free, a s d p y.1 = true → y = e := by
  intro y hy hty
  rcases eq_or_ne y.1 e.1 with h1 | h1
  · exact List.inj_on_of_nodup_map (courseNames_nodup free) hy he h1
  · exfalso
    have hcount : 2 ≤ (courseNames free).countP (a s d p) :=
      two_le_countP (a s d p) (courseNames free) y.1 e.1
        (List.mem_map_of_mem _ hy) (List.mem_map_of_mem _ he) h1 hty ht
    rw [slotSum, sum_toNat_countP] at hcard
    omega

/-- When the true course at a slot is unique, extraction returns exactly that
course and its teacher. -/
lemma extract_unique {free : Bool} {a : Asgn} {s d : String} {p : Nat}
    (hcard : slotSum free a s d p ≤ 1) (e : CourseEntry) (he : e ∈ courses free)
    (ht : a s d p e.1 = true) :
    extract free a s d p = some (e.1, e.2.2.2) := by
  have hlast := lastTrue_unique (fun x => a s d p x.1) (courses free) e he ht
    (entry_unique hcard e he ht)
  rw [extract, foldl_lastTrue, hlast]

/-- Combination of constraints 1 and 7 for one pinned slot. -/
lemma pin_one {free : Bool} {a : Asgn} (h : Satisfies free a) (s d : String)
    (p : Nat) (hs : s ∈ sections) (hd : d ∈ days) (hp : p ∈ periodIds)
    (e : CourseEntry) (he : e ∈ courses free) (ht : a s d p e.1 = true) :
    extract free a s d p = some (e.1, e.2.2.2) :=
  extract_unique (slot_le_of_sat h s hs d hd p hp) e he ht

/-- C8: every satisfying assignment makes each fixed slot's course variable
true, and the extracted solution maps that (section, day, period) to exactly
that course together with its configured teacher. -/
theorem C8_fixed_slot_pinning (free : Bool) (a : Asgn) (h : Satisfies free a) :
    ∀ x ∈ fixed_slots, a x.1 x.2.1 x.2.2.1 x.2.2.2 = true ∧
      extract free a x.1 x.2.1 x.2.2.1
        = some (x.2.2.2, courseTeacher free x.2.2.2) := by
  have h7 := (sat_rules h).2.2.2.2.2.2
  rw [rule7, List.all_eq_true] at h7
  intro x hx
  have hxt : a x.1 x.2.1 x.2.2.1 x.2.2.2 = true := h7 x hx
  refine ⟨hxt, ?_⟩
  have hPD : ("PD", 2, false, "Ms. Kirupavathy") ∈ courses free :=
    List.mem_append_left _ (by decide)
  have hLIB : ("LIB", 1, false, "Ms. Kirupavathy") ∈ courses free :=
    List.mem_append_left _ (by decide)
  have hACT : ("ACT", 2, false, "All Staff") ∈ courses free :=
    List.mem_append_left _ (by decide)
  simp only [fixed_slots, List.mem_cons, List.not_mem_nil, or_false] at hx
  rcases hx with rfl | rfl | rfl | rfl | rfl | rfl | rfl | rfl
  · rw [pin_one h _ _ _ (by decide) (by decide) (by decide) _ hPD hxt]
    cases free <;> rfl
  · rw [pin_one h _ _ _ (by decide) (by decide) (by decide) _ hPD hxt]
    cases free <;> rfl
  · rw [pin_one h _ _ _ (by decide) (by decide) (by decide) _ hPD hxt]
    cases free <;> rfl
  · rw [pin_one h _ _ _ (by decide) (by decide) (by decide) _ hPD hxt]
    cases free <;> rfl
  · rw [pin_one h _ _ _ (by decide) (by decide) (by decide) _ hLIB hxt]
    cases free <;> rfl
  · rw [pin_one h _ _ _ (by decide) (by decide) (by decide) _ hLIB hxt]
    cases free <;> rfl
  · rw [pin_one h _ _ _ (by decide) (by decide) (by decide) _ hACT hxt]
    cases free <;> rfl
  · rw [pin_one h _ _ _ (by decide) (by decide) (by decide) _ hACT hxt]
    cases free <;> rfl

/-- Witness for C8 at the concrete feasible timetable: the fixed slot
(A, Tue, 2, PD) is pinned and extracted with its teacher. -/
theorem C8_fixed_slot_pinning_witness :
    wAsgn ("A") ("Tue") 2 ("PD") = true ∧
      extract true wAsgn ("A") ("Tue") 2
        = some (("PD"), courseTeacher true ("PD")) :=
  C8_fixed_slot_pinning true wAsgn plan_sat ("A", "Tue", 2, "PD") (by decide)

/-- An assignment placing only the course `c0` at periods 1 and 2 of every
day, used to probe which constraint blocks bind on it. -/
def onlyAt (c0 : String) : Asgn := fun _ _ p c => c == c0 && (p == 1 || p == 2)

/-- C7 counterexample: constraint block 6, as built by the source, rejects an
assignment in which PD — or LIB, ACT, FREE — occupies the consecutive periods
1 and 2 of a day, so rule 6 does not exempt the administrative courses or the
FREE pseudo-course: only identifiers containing "LAB" are skipped. -/
theorem C7_counterexample :
    onlyAt ("PD") ("A") ("Mon") 1 ("PD") = true ∧
      onlyAt ("PD") ("A") ("Mon") 2 ("PD") = true ∧
      rule6 true (onlyAt ("PD")) = false ∧
      rule6 true (onlyAt ("LIB")) = false ∧
      rule6 true (onlyAt ("ACT")) = false ∧
      rule6 true (onlyAt ("FREE")) = false := by
  decide

/-- C7 amended: rule 4 does exempt PD, LIB, ACT and FREE (they are excluded
from the theory-course list, and an assignment giving PD two periods of one
day passes rule 4), but rule 6 does not: in every satisfying assignment, none
of PD, LIB, ACT, FREE (when present in the catalog) occupies two consecutive
periods of a day. -/
theorem C7_amended_exemptions (free : Bool) (a : Asgn) (h : Satisfies free a) :
    ((theoryCourses free).contains ("PD") = false ∧
      (theoryCourses free).contains ("LIB") = false ∧
      (theoryCourses free).contains ("ACT") = false ∧
      (theoryCourses free).contains ("FREE") = false ∧
      rule4 true (onlyAt ("PD")) = true) ∧
    ∀ s ∈ sections, ∀ d ∈ days, ∀ p ∈ consecPeriods,
      ∀ c ∈ [("PD" : String), ("LIB"), ("ACT"), ("FREE")], c ∈ courseNames free →
        ¬(a s d p c = true ∧ a s d (p + 1) c = true) := by
  constructor
  · cases free <;> exact ⟨by decide, by decide, by decide, by decide, by decide⟩
  · intro s hs d hd p hp c hc hcn hand
    obtain ⟨h1, h2⟩ := hand
    have h6 := (sat_rules h).2.2.2.2.2.1
    rw [rule6, List.all_eq_true] at h6
    have h6 := h6 s hs
    rw [List.all_eq_true] at h6
    have h6 := h6 d hd
    rw [List.all_eq_true] at h6
    have h6 := h6 p hp
    rw [List.all_eq_true] at h6
    have h6 := h6 c hcn
    rw [Bool.or_eq_true] at h6
    have hnl : strHas c ("LAB") = false := by
      simp only [List.mem_cons, List.not_mem_nil, or_false] at hc
      rcases hc with rfl | rfl | rfl | rfl <;> decide
    cases h6 with
    | inl hl => rw [hnl] at hl; exact absurd hl (by decide)
    | inr hle =>
      have hx := of_decide_eq_true hle
      rw [h1, h2] at hx
      exact absurd hx (by decide)

/-- Witness for the amended C7 at the concrete feasible timetable. -/
theorem C7_amended_exemptions_witness :
    ¬(wAsgn ("A") ("Mon") 1 ("PD") = true ∧ wAsgn ("A") ("Mon") 2 ("PD") = true) :=
  (C7_amended_exemptions true wAsgn plan_sat).2 ("A") (by decide) ("Mon")
    (by decide) 1 (by decide) ("PD") (by decide) (by decide)

/-- An assignment with two true course variables (PAS and OS) at every slot. -/
def twoTrueAsgn : Asgn := fun _ _ _ c => c == "PAS" || c == "OS"

/-- C9 counterexample: when two course variables are true at one slot,
extraction does not fail or abort: it silently produces a Solution entry for
that slot, keeping the later course in catalog order (OS) and discarding the
earlier one (PAS). -/
theorem C9_counterexample :
    twoTrueAsgn ("A") ("Mon") 1 ("PAS") = true ∧
      twoTrueAsgn ("A") ("Mon") 1 ("OS") = true ∧
      extract false twoTrueAsgn ("A") ("Mon") 1 = some ("OS", "Ms. K.Sudha") :=
  ⟨rfl, rfl, rfl⟩

/-- C9 amended: extraction is total — it never aborts.  For every slot it
records the last course in catalog iteration order whose variable is true
(silently overwriting any earlier true course) together with that course's
teacher, and records nothing when no variable is true. -/
theorem C9_amended_extraction_overwrites (free : Bool) (a : Asgn) (s d : String)
    (p : Nat) :
    extract free a s d p
      = (lastTrue (fun e => a s d p e.1) (courses free)).map
          (fun e => (e.1, e.2.2.2)) := by
  rw [extract, foldl_lastTrue]
  cases lastTrue (fun e => a s d p e.1) (courses free) <;> rfl

/-- A decision-variable key (section, day, period, course). -/
abbrev Slot4 := String × String × Nat × String

/-- Whether a key is present in the decision-variable dictionary built by
`generate_variables` (source lines 58-64): the dictionary holds exactly the
keys with a catalog course and in-range section, day and period. -/
def assignKey (free : Bool) (x : Slot4) : Bool :=
  sections.contains x.1 && days.contains x.2.1 && periodIds.contains x.2.2.1 &&
    (courseNames free).contains x.2.2.2

/-- `__init__` (source lines 44-56) merely stores the fixed-slot configuration;
it performs no validation, so it always succeeds.  The `Except` type records
where a configuration rejection would have to be signalled. -/
def initStores (free : Bool) (fs : List Slot4) : Except Slot4 (Bool × List Slot4) :=
  Except.ok (free, fs)

/-- The fixed-slot pinning loop of `add_constraints` (source lines 133-135),
generalized over the fixed-slot list: each iteration looks up
`self.assign[(s,d,p,c)]`; a missing key raises KeyError naming that key,
aborting constraint construction. -/
def pinFixedSlots (free : Bool) : List Slot4 → Except Slot4 Unit
  | [] => Except.ok ()
  | x :: xs => if assignKey free x then pinFixedSlots free xs else Except.error x

/-- C10 counterexample: a configuration whose fixed-slot set names the unknown
course "XYZ" is not rejected before variable and constraint construction:
`__init__` stores it unvalidated, and the missing key is only hit later,
during constraint construction, when the pinning loop looks up the variable. -/
theorem C10_counterexample :
    initStores true [("A", "Mon", 1, "XYZ")]
        = Except.ok (true, [("A", "Mon", 1, "XYZ")]) ∧
      assignKey true ("A", "Mon", 1, "XYZ") = false ∧
      pinFixedSlots true (fixed_slots ++ [("A", "Mon", 1, "XYZ")])
        = Except.error ("A", "Mon", 1, "XYZ") :=
  ⟨rfl, by decide, by rfl⟩

/-- C10 amended: `__init__` never rejects a configuration, and the fixed-slot
pinning loop of `add_constraints` is where an unknown course surfaces: it
fails on the first fixed slot whose key is missing from the variable
dictionary, reporting exactly that offending tuple, and succeeds when every
fixed slot names an existing variable. -/
theorem C10_amended_keyerror_during_construction :
    (∀ (free : Bool) (fs : List Slot4), initStores free fs = Except.ok (free, fs)) ∧
      ∀ (free : Bool) (fs : List Slot4),
        pinFixedSlots free fs
          = match fs.find? (fun x => !(assignKey free x)) with
            | some y => Except.error y
            | none => Except.ok () := by
  refine ⟨fun _ _ => rfl, ?_⟩
  intro free fs
  induction fs with
  | nil => rfl
  | cons x xs ih =>
    cases hk : assignKey free x
    · simp [pinFixedSlots, hk, List.find?_cons]
    · simp [pinFixedSlots, hk, List.find?_cons, ih]

end TT
